import Mathlib

/-!
Verification development for the GEXA indexing and retrieval pipeline.

The Python sources are shallowly embedded as executable Lean definitions:
pure functions become Lean functions, database tables become lists of row
structures, the two unbounded while loops (the site walker and the text
chunker) take explicit fuel, and external collaborators (the Playwright
navigation, the urlparse and urljoin standard-library helpers, the pgvector
cosine-distance operator, the SHA-256 hash and the remote embedding API)
enter as explicit parameters or as already-resolved inputs.
-/

namespace Gexa

/-- A parsed URL as produced by the Python standard-library urlparse:
scheme, network location, path, query and fragment. urlparse itself is
outside this repository, so the crawler functions below receive URLs in
already parsed form. -/
structure Url where
  scheme : String
  netloc : String
  path : String
  query : String
  fragment : String
  deriving DecidableEq, Repr

/-- Python str.lower restricted to the ASCII case mapping; the URL
components handled by the normalizer are ASCII, where Char.toLower agrees
with the Python lowercasing. -/
def pyLower (s : String) : String :=
  ⟨s.data.map Char.toLower⟩

/-- Python str.rstrip with the single slash argument: remove every trailing
slash character. -/
def rstripSlash (s : String) : String :=
  ⟨(s.data.reverse.dropWhile (fun c => c = '/')).reverse⟩

/-- CrawlerEngine._normalize_url from crawler/engine.py: rebuild the string
scheme://netloc followed by the path with trailing slashes stripped, append
the query behind a question mark when the query is nonempty, drop the
fragment, and lowercase the entire resulting string. -/
def normalize_url (u : Url) : String :=
  pyLower ((u.scheme ++ "://" ++ u.netloc ++ rstripSlash u.path) ++
    (if u.query ≠ "" then "?" ++ u.query else ""))

/-- Modelled from the spec wording, for comparison with normalize_url: the
scheme, then the netloc lowercased, then the path with trailing slash
stripped, then the query preserved verbatim when present, fragment dropped;
path and query not otherwise altered. -/
def spec_normalize_url (u : Url) : String :=
  u.scheme ++ "://" ++ pyLower u.netloc ++ rstripSlash u.path ++
    (if u.query ≠ "" then "?" ++ u.query else "")

/-- CrawlerEngine._is_in_scope from crawler/engine.py: the scheme must be
http or https; with include_subdomains the netloc must end with the base
domain, otherwise it must equal the base domain. -/
def is_in_scope (u : Url) (base_domain : String) (include_subdomains : Bool) : Bool :=
  if ¬ (u.scheme = "http" ∨ u.scheme = "https") then false
  else if include_subdomains then u.netloc.endsWith base_domain
  else u.netloc == base_domain

/-- The fields of the ExtractedContent dataclass from crawler/extractor.py
that the claims touch. The raw href strings are resolved against the page
URL by the standard-library urljoin before any use in the walker, so links
are modelled as the resolved, parsed URLs. Dates are abstracted to
integers. -/
structure ExtractedContent where
  title : Option String
  description : Option String
  content : Option String
  markdown : Option String
  author : Option String
  published_date : Option Int
  language : Option String
  links : List Url
  deriving DecidableEq, Repr

/-- Outcome of the Playwright navigation for one URL (an external
collaborator): a response that may be absent, carrying an HTTP status and
the rendered HTML; a timeout; or some other failure with its message. -/
inductive NavOutcome where
  | ok (response : Option Nat) (html : String)
  | timeout
  | failure (message : String)
  deriving DecidableEq, Repr

/-- The CrawlResult dataclass from crawler/engine.py (the crawled_at wall
clock timestamp is omitted). -/
structure CrawlResult where
  url : Url
  status_code : Nat
  content : Option ExtractedContent
  error : Option String
  deriving DecidableEq, Repr

/-- CrawlerEngine.crawl_url from crawler/engine.py, with the navigation
modelled by its outcome and the content extractor passed as an explicit
dependency. A missing response gives status 0; a status of at least 400
returns that status, no content, and the error HTTP followed by the status;
a timeout returns status 0 with the message from the source; any other
failure returns status 0 with the failure message. -/
def crawl_url (extract : Url → String → ExtractedContent) (u : Url)
    (nav : NavOutcome) : CrawlResult :=
  match nav with
  | .ok response html =>
      let status_code := response.getD 0
      if 400 ≤ status_code then
        { url := u, status_code := status_code, content := none,
          error := some ("HTTP " ++ toString status_code) }
      else
        { url := u, status_code := status_code,
          content := some (extract u html), error := none }
  | .timeout =>
      { url := u, status_code := 0, content := none,
        error := some "Timeout while loading page" }
  | .failure msg =>
      { url := u, status_code := 0, content := none, error := some msg }

/-- The inner batch-selection loop of CrawlerEngine.crawl_site: pop URLs
from the frontier while the frontier is nonempty and the batch is not yet
full, adding a popped URL to the batch and its normalized form to the
visited set unless the normalized form was already visited. Returns the
batch, the updated visited set and the remaining frontier. -/
def takeBatch (visited : List String) (frontier : List Url) (remaining : Nat) :
    List Url × List String × List Url :=
  match frontier, remaining with
  | _, 0 => ([], visited, frontier)
  | [], _ + 1 => ([], visited, [])
  | u :: rest, n + 1 =>
      if (visited.contains (normalize_url u)) then takeBatch visited rest (n + 1)
      else
        let r := takeBatch (normalize_url u :: visited) rest n
        (u :: r.1, r.2)

/-- The link-enqueueing step of CrawlerEngine.crawl_site: for each batch
result in order, the outbound links of its extracted content that pass the
scope test and whose normalized form is not yet visited are appended to the
frontier. -/
def collectLinks (base_domain : String) (include_subdomains : Bool)
    (visited : List String) (batch_results : List CrawlResult) : List Url :=
  batch_results.flatMap (fun r =>
    match r.content with
    | some c => c.links.filter (fun l =>
        is_in_scope l base_domain include_subdomains &&
          !(visited.contains (normalize_url l)))
    | none => [])

/-- The outer while loop of CrawlerEngine.crawl_site, with explicit fuel.
Every iteration with a nonempty batch appends at least one result and the
loop stops once max_pages results exist, so max_pages + 1 fuel makes the
fueled loop agree with the Python while loop; the theorems below hold for
every fuel. -/
def crawl_site_loop (fetch : Url → NavOutcome)
    (extract : Url → String → ExtractedContent)
    (base_domain : String) (include_subdomains : Bool)
    (max_pages max_concurrent : Nat) :
    Nat → List String → List Url → List CrawlResult → List CrawlResult
  | 0, _, _, results => results
  | fuel + 1, visited, frontier, results =>
      if frontier ≠ [] ∧ results.length < max_pages then
        match takeBatch visited frontier
            (min max_concurrent (max_pages - results.length)) with
        | (batch, visited2, frontier2) =>
          if batch = [] then results
          else
            crawl_site_loop fetch extract base_domain include_subdomains
              max_pages max_concurrent fuel visited2
              (frontier2 ++ collectLinks base_domain include_subdomains
                visited2 (batch.map (fun u => crawl_url extract u (fetch u))))
              (results ++ batch.map (fun u => crawl_url extract u (fetch u)))
      else results

/-- CrawlerEngine.crawl_site from crawler/engine.py: breadth-first walk from
the seed URL; the base domain is the netloc of the parsed seed, the visited
set holds normalized URLs, batches are bounded by max_concurrent and by the
number of result slots left. -/
def crawl_site (fetch : Url → NavOutcome)
    (extract : Url → String → ExtractedContent) (seed : Url)
    (max_pages max_concurrent : Nat) (include_subdomains : Bool) :
    List CrawlResult :=
  crawl_site_loop fetch extract seed.netloc include_subdomains max_pages
    max_concurrent (max_pages + 1) [] [seed] []

/-- A text chunk as produced by EmbeddingService.chunk_text: the dict with
content, start_char and end_char. Python slicing admits negative indices,
so the positions are integers; text is modelled as a list of characters so
that indexing is by character, as in Python. -/
structure Chunk where
  content : List Char
  start_char : Int
  end_char : Int
  deriving DecidableEq, Repr

/-- Clamp one Python slice index to a position in a list of the given
length: a negative index counts from the end and an index past either end
is clamped. -/
def pyIdx (len : Nat) (i : Int) : Nat :=
  if i < 0 then ((len : Int) + i).toNat else min i.toNat len

/-- The Python slice l[i:j]. -/
def pySlice (l : List Char) (i j : Int) : List Char :=
  (l.drop (pyIdx l.length i)).take (pyIdx l.length j - pyIdx l.length i)

/-- Python str.strip with no argument: drop whitespace from both ends. -/
def pyStrip (l : List Char) : List Char :=
  ((l.dropWhile Char.isWhitespace).reverse.dropWhile Char.isWhitespace).reverse

/-- Python str.rfind: the largest index at which the needle occurs in the
haystack, or none when it does not occur. -/
def pyRfind (hay needle : List Char) : Option Nat :=
  ((List.range (hay.length + 1)).filter
    (fun i => needle.isPrefixOf (hay.drop i))).getLast?

/-- The sentence separators tried, in order, by chunk_text. -/
def chunkSeparators : List (List Char) :=
  [". ", ".\n", "! ", "!\n", "? ", "?\n"].map String.data

/-- The separator scan of chunk_text: try each separator in list order and
return the position and length of the rightmost occurrence of the first
separator that occurs at all in the search text. -/
def findSep : List (List Char) → List Char → Option (Nat × Nat)
  | [], _ => none
  | sep :: rest, search_text =>
      match pyRfind search_text sep with
      | some pos => some (pos, sep.length)
      | none => findSep rest search_text

/-- The window-end computation of one chunk_text iteration: the target end
is start plus chunk_size; when the target end is before the end of the
text, the tail region from start plus int(chunk_size * 0.8) up to the
target end is searched for a sentence separator and the end moves to just
after the separator when one is found; otherwise the end is the end of the
text. The Python expression int(chunk_size * 0.8) is modelled as
4 * chunk_size / 5 in natural division; the two agree at the default
chunk_size of 1000. -/
def chunkEnd (text : List Char) (chunk_size : Nat) (start : Int) : Int :=
  let len : Int := text.length
  let end0 : Int := start + chunk_size
  if end0 < len then
    let search_start : Int := start + (4 * chunk_size / 5 : Nat)
    match findSep chunkSeparators (pySlice text search_start end0) with
    | some ps => search_start + ps.1 + ps.2
    | none => end0
  else len

/-- One iteration of the while loop in EmbeddingService.chunk_text: compute
the window end, append the stripped window when it is nonempty, advance
start to end minus overlap, then the progress guard exactly as written in
the source, whose condition is the ternary expression
start <= chunks[-1][start_char] if chunks else 0 and is therefore the
constant falsy 0 whenever no chunk has been appended yet. -/
def chunkIter (text : List Char) (chunk_size chunk_overlap : Nat)
    (start : Int) (chunks : List Chunk) : Int × List Chunk :=
  let endPos : Int := chunkEnd text chunk_size start
  let piece := pyStrip (pySlice text start endPos)
  let chunks2 :=
    if piece ≠ [] then chunks ++ [⟨piece, start, endPos⟩] else chunks
  let start2 : Int := endPos - chunk_overlap
  let start3 : Int :=
    match chunks2.getLast? with
    | some c => if start2 ≤ c.start_char then endPos else start2
    | none => start2
  (start3, chunks2)

/-- The while loop of EmbeddingService.chunk_text with explicit fuel: while
start is before the end of the text, run one iteration; return the chunk
list when the loop condition fails, and none when the fuel runs out. -/
def chunkLoop (text : List Char) (chunk_size chunk_overlap : Nat) :
    Nat → Int → List Chunk → Option (List Chunk)
  | 0, _, _ => none
  | fuel + 1, start, chunks =>
      if start < (text.length : Int) then
        let s := chunkIter text chunk_size chunk_overlap start chunks
        chunkLoop text chunk_size chunk_overlap fuel s.1 s.2
      else some chunks

/-- EmbeddingService.chunk_text from search/embeddings.py: empty text or
text no longer than chunk_size yields a single chunk holding the text
verbatim; otherwise the fueled while loop runs from start 0 with no chunks
accumulated. -/
def chunk_text (fuel : Nat) (text : List Char)
    (chunk_size chunk_overlap : Nat) : Option (List Chunk) :=
  if text.isEmpty || text.length ≤ chunk_size then
    some [⟨text, 0, text.length⟩]
  else
    chunkLoop text chunk_size chunk_overlap fuel 0 []

/-- One row of the page_chunks table joined with its web_pages row, with
the columns selected by the SQL query of VectorStore.search. The embedding
column is nullable (database/models.py); dates are abstracted to
integers. -/
structure ChunkRow where
  chunk_id : Nat
  page_id : Nat
  url : String
  title : Option String
  domain : String
  author : Option String
  published_date : Option Int
  language : Option String
  page_content : Option String
  chunk_content : String
  chunk_index : Nat
  embedding : Option (List ℚ)
  deriving DecidableEq, Repr

/-- The search filter dict of VectorStore.search: absent keys mean no
restriction, and Python truthiness makes an empty domains, exclude_domains
or language value also mean no restriction. Dates are abstracted to
integers (the datetime values used by the source are always truthy, so no
truthiness case arises for present dates). -/
structure SearchFilters where
  domains : Option (List String) := none
  exclude_domains : Option (List String) := none
  start_date : Option Int := none
  end_date : Option Int := none
  language : Option String := none
  deriving DecidableEq, Repr

/-- The WHERE clause built by VectorStore.search: the embedding must not be
NULL, the domain must be in the allow list and out of the deny list when
those are given, the published date must lie within the given bounds, and
the language must match when given; a NULL published_date or language never
satisfies a SQL comparison. -/
def rowMatches (filters : Option SearchFilters) (r : ChunkRow) : Bool :=
  r.embedding.isSome &&
    (match filters with
     | none => true
     | some f =>
         (match f.domains with
          | some ds => ds.isEmpty || ds.contains r.domain
          | none => true) &&
         (match f.exclude_domains with
          | some ds => ds.isEmpty || !(ds.contains r.domain)
          | none => true) &&
         (match f.start_date, r.published_date with
          | some d, some p => d ≤ p
          | some _, none => false
          | none, _ => true) &&
         (match f.end_date, r.published_date with
          | some d, some p => p ≤ d
          | some _, none => false
          | none, _ => true) &&
         (match f.language, r.language with
          | some lang, some rl => lang.isEmpty || rl == lang
          | some lang, none => lang.isEmpty
          | none, _ => true))

/-- The SQL expression 1 - (pc.embedding <=> :query_embedding::vector): the
pgvector cosine-distance operator is computed by the database extension and
is modelled as the explicit function dist. The WHERE clause guarantees the
embedding is present; getD supplies a dummy to keep the function total. -/
def scoreOf (dist : List ℚ → List ℚ → ℚ) (query_embedding : List ℚ)
    (r : ChunkRow) : ℚ :=
  1 - dist (r.embedding.getD []) query_embedding

/-- The rows fetched by the SQL query of VectorStore.search: the rows that
match the WHERE clause, ordered by score descending (modelled as a stable
insertion sort) and limited to the given count. -/
def sqlSearchRows (dist : List ℚ → List ℚ → ℚ) (query_embedding : List ℚ)
    (limit : Nat) (filters : Option SearchFilters) (table : List ChunkRow) :
    List ChunkRow :=
  (List.insertionSort
    (fun a b => scoreOf dist query_embedding b ≤ scoreOf dist query_embedding a)
    (table.filter (rowMatches filters))).take limit

/-- One result dict built by the Python loop in VectorStore.search. -/
structure SearchResult where
  chunk_id : Nat
  page_id : Nat
  url : String
  title : Option String
  domain : String
  author : Option String
  published_date : Option Int
  content : Option String
  chunk_content : String
  score : ℚ
  deriving DecidableEq, Repr

/-- The result dict for one fetched row. -/
def mkSearchResult (dist : List ℚ → List ℚ → ℚ) (query_embedding : List ℚ)
    (r : ChunkRow) : SearchResult :=
  { chunk_id := r.chunk_id, page_id := r.page_id, url := r.url,
    title := r.title, domain := r.domain, author := r.author,
    published_date := r.published_date, content := r.page_content,
    chunk_content := r.chunk_content,
    score := scoreOf dist query_embedding r }

/-- The deduplication loop after the SQL query in VectorStore.search: walk
the fetched rows in order and keep a row only when its page_id has not been
seen before. -/
def dedupByPage (dist : List ℚ → List ℚ → ℚ) (query_embedding : List ℚ) :
    List ChunkRow → List Nat → List SearchResult
  | [], _ => []
  | r :: rest, seen =>
      if seen.contains r.page_id then dedupByPage dist query_embedding rest seen
      else
        mkSearchResult dist query_embedding r ::
          dedupByPage dist query_embedding rest (r.page_id :: seen)

namespace VectorStore

/-- VectorStore.search from search/vector_store.py: fetch the top rows by
the SQL query, then deduplicate by page keeping the first occurrence. -/
def search (dist : List ℚ → List ℚ → ℚ) (query_embedding : List ℚ)
    (limit : Nat) (filters : Option SearchFilters) (table : List ChunkRow) :
    List SearchResult :=
  dedupByPage dist query_embedding
    (sqlSearchRows dist query_embedding limit filters table) []

end VectorStore

/-- One row of the page_chunks table as written by
VectorStore.upsert_chunks. -/
structure StoredChunk where
  page_id : Nat
  chunk_index : Nat
  content : List Char
  embedding : List ℚ
  start_char : Option Int
  end_char : Option Int
  deriving DecidableEq, Repr

namespace VectorStore

/-- VectorStore.upsert_chunks from search/vector_store.py: delete every
chunk row of the page, then insert one row per element of the Python
zip(chunks, embeddings), assigning chunk_index from the enumeration; zip
stops at the shorter list and raises nothing. -/
def upsert_chunks (db : List StoredChunk) (page_id : Nat)
    (chunks : List Chunk) (embeddings : List (List ℚ)) : List StoredChunk :=
  let remaining := db.filter (fun r => r.page_id != page_id)
  remaining ++ (chunks.zip embeddings).enum.map (fun ie =>
    { page_id := page_id, chunk_index := ie.1, content := ie.2.1.content,
      embedding := ie.2.2, start_char := some ie.2.1.start_char,
      end_char := some ie.2.1.end_char })

end VectorStore

/-- A row of the web_pages table with the columns set by
SearchService._save_page; the url column is declared unique in
database/models.py. -/
structure PageRow where
  url : Url
  domain : String
  title : Option String
  description : Option String
  content : Option String
  markdown : Option String
  author : Option String
  published_date : Option Int
  language : Option String
  content_hash : Option String
  deriving DecidableEq, Repr

/-- The WebPage row constructed by SearchService._save_page from the
extracted content: the domain is the netloc of the parsed URL and the
content hash applies the external SHA-256 of hashlib, passed as hashFn. -/
def mkPageRow (hashFn : String → String) (url : Url)
    (content : Option ExtractedContent) : PageRow :=
  { url := url, domain := url.netloc,
    title := content.bind (fun c => c.title),
    description := content.bind (fun c => c.description),
    content := content.bind (fun c => c.content),
    markdown := content.bind (fun c => c.markdown),
    author := content.bind (fun c => c.author),
    published_date := content.bind (fun c => c.published_date),
    language := content.bind (fun c => c.language),
    content_hash := (content.bind (fun c => c.content)).map hashFn }

/-- SearchService._save_page from search/service.py: build a brand new
WebPage row from the extracted content and add it to the session. The
source never looks up an existing row, so the commit of the insert is
rejected by the unique constraint on web_pages.url whenever a row with the
same url already exists, and the database state is unchanged in that
case. -/
def save_page (hashFn : String → String) (db : List PageRow) (url : Url)
    (content : Option ExtractedContent) : Except String (List PageRow) :=
  if db.any (fun p => p.url == url) then
    Except.error "duplicate key value violates unique constraint web_pages_url_key"
  else
    Except.ok (db ++ [mkPageRow hashFn url content])

/-- A sequence of save_page calls against an evolving database state; a
save rejected by the unique constraint leaves the state unchanged. -/
def runSaves (hashFn : String → String) (db : List PageRow) :
    List (Url × Option ExtractedContent) → List PageRow
  | [] => db
  | (u, c) :: rest =>
      match save_page hashFn db u c with
      | Except.ok db2 => runSaves hashFn db2 rest
      | Except.error _ => runSaves hashFn db rest

/-- One result entry of SearchService.search (the formatted dict): content
is attached only when include_content is set, highlights only when
include_highlights is set and the raw result has page content. -/
structure ServiceResult where
  id : Nat
  url : String
  title : Option String
  score : ℚ
  published_date : Option Int
  author : Option String
  content : Option String
  highlights : Option (List String)
  deriving DecidableEq, Repr

/-- The response dict of SearchService.search; took_ms is wall-clock time
and is omitted. -/
structure SearchResponse where
  query : String
  results : List ServiceResult
  total_results : Nat
  deriving DecidableEq, Repr

/-- A row of the search_queries table as written by SearchService.search;
the filters string and the wall-clock latency column are omitted. -/
structure SearchLogRow where
  api_key_id : Nat
  query : String
  num_results : Nat
  results_count : Nat
  deriving DecidableEq, Repr

namespace SearchService

/-- SearchService.search from search/service.py, with the query embedding
already computed (the remote embedding API is external), the pgvector
distance passed as dist, the highlight extraction passed as get_highlights
and the log write (db.add of the SearchQuery row followed by commit)
modelled by log_write, which can fail like any database write. The source
wraps the log write in no try/except, so a failing write aborts search and
its error is returned in place of the response; the write happens only when
an api_key is given. -/
def search (dist : List ℚ → List ℚ → ℚ)
    (get_highlights : String → String → List String)
    (table : List ChunkRow) (query : String) (query_embedding : List ℚ)
    (num_results : Nat) (include_content include_highlights : Bool)
    (filters : Option SearchFilters) (api_key : Option Nat)
    (log_write : SearchLogRow → Except String Unit) :
    Except String SearchResponse :=
  let raw := VectorStore.search dist query_embedding num_results filters table
  let results := raw.map (fun r =>
    ({ id := r.page_id, url := r.url, title := r.title, score := r.score,
       published_date := r.published_date, author := r.author,
       content := if include_content then r.content else none,
       highlights :=
         match include_highlights, r.content with
         | true, some c => some (get_highlights c query)
         | _, _ => none } : ServiceResult))
  let response : SearchResponse :=
    { query := query, results := results, total_results := results.length }
  match api_key with
  | some key_id =>
      match log_write { api_key_id := key_id, query := query,
                        num_results := num_results,
                        results_count := results.length } with
      | Except.ok _ => Except.ok response
      | Except.error e => Except.error e
  | none => Except.ok response

end SearchService

/-! Helper lemmas about the Python string primitives. -/

theorem pyLower_append (a b : String) :
    pyLower (a ++ b) = pyLower a ++ pyLower b := by
  apply String.ext
  simp [pyLower, String.data_append]

theorem pyLower_sep : pyLower "://" = "://" := rfl

theorem pyLower_qm : pyLower "?" = "?" := rfl

theorem pyLower_empty : pyLower "" = "" := rfl

/-! C3: URL normalization. -/

/-- A concrete URL with uppercase letters in the netloc, path and query. -/
def urlC3 : Url := ⟨"http", "Example.COM", "/Path/", "Q=A", "frag"⟩

/-- C3 counterexample: the claim predicts that the path and query survive
normalization verbatim (only the netloc lowercased), which is the
spec_normalize_url rendering; the source lowercases the whole string, so on
a URL with uppercase letters in the path or query the two differ. -/
theorem C3_counterexample :
    normalize_url urlC3 = "http://example.com/path?q=a" ∧
    spec_normalize_url urlC3 = "http://example.com/Path?Q=A" ∧
    normalize_url urlC3 ≠ spec_normalize_url urlC3 := by
  refine ⟨by decide, by decide, by decide⟩

/-- C3 amended: normalize_url returns the scheme, then the netloc, then the
path with trailing slashes stripped, then the query behind a question mark
when the query is nonempty, with the fragment dropped — and with every
component lowercased (the path and query are lowercased too, not only the
netloc). -/
theorem C3_normalize_url_characterization :
    ∀ u : Url, normalize_url u =
      pyLower u.scheme ++ "://" ++ pyLower u.netloc ++
        pyLower (rstripSlash u.path) ++
        (if u.query ≠ "" then "?" ++ pyLower u.query else "") := by
  intro u
  by_cases hq : u.query = ""
  · simp [normalize_url, hq, pyLower_append, pyLower_sep, pyLower_empty,
      String.append_assoc]
  · simp [normalize_url, hq, pyLower_append, pyLower_sep, pyLower_qm,
      String.append_assoc]

/-! C10: the short-input branch of the chunker. -/

/-- C10: on empty input the chunker returns a single chunk with empty
content and positions 0 and 0 (not an empty list); on any input no longer
than the chunk size it returns one chunk whose content is the input
verbatim, never trimmed and never discarded for being empty. -/
theorem C10_short_input_verbatim :
    ∀ (fuel chunk_size chunk_overlap : Nat),
      chunk_text fuel [] chunk_size chunk_overlap
        = some [⟨[], 0, 0⟩] ∧
      ∀ text : List Char, text.length ≤ chunk_size →
        chunk_text fuel text chunk_size chunk_overlap
          = some [⟨text, 0, (text.length : Int)⟩] := by
  intro fuel chunk_size chunk_overlap
  constructor
  · simp [chunk_text]
  · intro text h
    simp [chunk_text, h]

/-- C10 witness: the short-input case evaluated at a concrete one-character
text with chunk size 5. -/
theorem C10_witness :
    chunk_text 0 ['a'] 5 1 = some [⟨['a'], 0, 1⟩] :=
  (C10_short_input_verbatim 0 5 1).2 ['a'] (by decide)

/-! C7: termination of the chunker loop. -/

/-- The chunker loop state cycle on a 30-character all-whitespace input with
chunk size 10 and overlap 3: every window strips to the empty chunk, so the
chunk list stays empty, the progress guard (whose condition is the falsy
constant 0 while the chunk list is empty) never fires, and the start
position walks 0, 7, 14, 21 and then stays at 27 forever. -/
theorem chunkLoop_spaces_stuck :
    ∀ (fuel : Nat) (start : Int),
      start = 0 ∨ start = 7 ∨ start = 14 ∨ start = 21 ∨ start = 27 →
      chunkLoop (List.replicate 30 ' ') 10 3 fuel start [] = none := by
  intro fuel
  induction fuel with
  | zero => intro start _; rfl
  | succ n ih =>
      intro start h
      rcases h with rfl | rfl | rfl | rfl | rfl
      · have e : chunkLoop (List.replicate 30 ' ') 10 3 (n + 1) 0 []
            = chunkLoop (List.replicate 30 ' ') 10 3 n 7 [] := rfl
        rw [e]; exact ih 7 (by decide)
      · have e : chunkLoop (List.replicate 30 ' ') 10 3 (n + 1) 7 []
            = chunkLoop (List.replicate 30 ' ') 10 3 n 14 [] := rfl
        rw [e]; exact ih 14 (by decide)
      · have e : chunkLoop (List.replicate 30 ' ') 10 3 (n + 1) 14 []
            = chunkLoop (List.replicate 30 ' ') 10 3 n 21 [] := rfl
        rw [e]; exact ih 21 (by decide)
      · have e : chunkLoop (List.replicate 30 ' ') 10 3 (n + 1) 21 []
            = chunkLoop (List.replicate 30 ' ') 10 3 n 27 [] := rfl
        rw [e]; exact ih 27 (by decide)
      · have e : chunkLoop (List.replicate 30 ' ') 10 3 (n + 1) 27 []
            = chunkLoop (List.replicate 30 ' ') 10 3 n 27 [] := rfl
        rw [e]; exact ih 27 (by decide)

/-- C7: the claim says the chunker terminates on every input whenever
0 < overlap < chunk size. The source guard is falsy while the chunk list is
empty, so on a 30-character all-whitespace input with chunk size 10 and
overlap 3 the loop never terminates: the fueled loop returns none for every
amount of fuel. -/
theorem C7_chunker_diverges :
    ∀ fuel : Nat,
      chunk_text fuel (List.replicate 30 ' ') 10 3 = none := by
  intro fuel
  have h := chunkLoop_spaces_stuck fuel 0 (by decide)
  have e : chunk_text fuel (List.replicate 30 ' ') 10 3
      = chunkLoop (List.replicate 30 ' ') 10 3 fuel 0 [] := by
    rw [chunk_text, if_neg (by decide)]
  rw [e]; exact h

/-! C9: upsert_chunks. -/

/-- C9: upsert_chunks stores exactly min(chunks, embeddings) rows for the
page, with chunk_index values dense from 0 in list order and the content
and embedding taken from the zipped lists; unequal input lengths drop the
excess items of the longer list silently — upsert_chunks is a total
function and raises nothing. -/
theorem C9_upsert_zip_semantics :
    ∀ (db : List StoredChunk) (page_id : Nat) (chunks : List Chunk)
      (embeddings : List (List ℚ)),
      ((VectorStore.upsert_chunks db page_id chunks embeddings).filter
          (fun r => r.page_id == page_id)).length
        = min chunks.length embeddings.length ∧
      ((VectorStore.upsert_chunks db page_id chunks embeddings).filter
          (fun r => r.page_id == page_id)).map (fun r => r.chunk_index)
        = List.range (min chunks.length embeddings.length) ∧
      ((VectorStore.upsert_chunks db page_id chunks embeddings).filter
          (fun r => r.page_id == page_id)).map
            (fun r => (r.content, r.embedding))
        = (chunks.zip embeddings).map (fun ce => (ce.1.content, ce.2)) := by
  intro db page_id chunks embeddings
  have hrem : (db.filter (fun r => r.page_id != page_id)).filter
      (fun r => r.page_id == page_id) = [] := by
    rw [List.filter_filter]
    apply List.filter_eq_nil_iff.2
    intro r _
    simp
  have hnew : ((chunks.zip embeddings).enum.map (fun ie =>
      ({ page_id := page_id, chunk_index := ie.1, content := ie.2.1.content,
         embedding := ie.2.2, start_char := some ie.2.1.start_char,
         end_char := some ie.2.1.end_char } : StoredChunk))).filter
        (fun r => r.page_id == page_id)
      = (chunks.zip embeddings).enum.map (fun ie =>
      ({ page_id := page_id, chunk_index := ie.1, content := ie.2.1.content,
         embedding := ie.2.2, start_char := some ie.2.1.start_char,
         end_char := some ie.2.1.end_char } : StoredChunk)) := by
    apply List.filter_eq_self.2
    intro r hr
    rcases List.mem_map.1 hr with ⟨ie, _, rfl⟩
    simp
  unfold VectorStore.upsert_chunks
  rw [List.filter_append, hrem, List.nil_append, hnew]
  refine ⟨?_, ?_, ?_⟩
  · rw [List.length_map, List.enum_length, List.length_zip]
  · rw [List.map_map]
    have : ((fun r : StoredChunk => r.chunk_index) ∘ (fun ie : Nat × Chunk × List ℚ =>
        ({ page_id := page_id, chunk_index := ie.1, content := ie.2.1.content,
           embedding := ie.2.2, start_char := some ie.2.1.start_char,
           end_char := some ie.2.1.end_char } : StoredChunk))) = Prod.fst := rfl
    rw [this, List.enum_map_fst, List.length_zip]
  · rw [List.map_map]
    have : ((fun r : StoredChunk => (r.content, r.embedding)) ∘
        (fun ie : Nat × Chunk × List ℚ =>
        ({ page_id := page_id, chunk_index := ie.1, content := ie.2.1.content,
           embedding := ie.2.2, start_char := some ie.2.1.start_char,
           end_char := some ie.2.1.end_char } : StoredChunk)))
        = (fun ce : Chunk × List ℚ => (ce.1.content, ce.2)) ∘ Prod.snd := rfl
    rw [this, ← List.map_map, List.enum_map_snd]

/-! C1: page saving and URL uniqueness. -/

/-- A hash function standing in for the external SHA-256. -/
def hashC1 : String → String := fun _ => "hash"

/-- A concrete URL for the C1 counterexample. -/
def urlC1 : Url := ⟨"https", "a.test", "/", "", ""⟩

/-- The database state after the first successful save of urlC1. -/
def dbC1 : List PageRow :=
  match save_page hashC1 [] urlC1 none with
  | Except.ok db => db
  | Except.error _ => []

/-- C1 counterexample: after a first crawl of urlC1 exactly one Page row
with that url exists, and saving urlC1 again does not update that row — the
unconditional insert is rejected by the unique constraint and save_page
returns an error. -/
theorem C1_counterexample :
    (dbC1.filter (fun p => p.url == urlC1)).length = 1 ∧
    save_page hashC1 dbC1 urlC1 none
      = Except.error
          "duplicate key value violates unique constraint web_pages_url_key" :=
  ⟨by decide, rfl⟩

/-- C1 amended: saving a URL that already has a Page row fails with a
uniqueness violation instead of updating the row; a failed save leaves the
database unchanged, so after any sequence of save operations starting from
the empty database at most one Page row exists per URL. -/
theorem C1_url_unique :
    ∀ (hashFn : String → String) (ops : List (Url × Option ExtractedContent))
      (u : Url),
      ((runSaves hashFn [] ops).filter (fun p => p.url == u)).length ≤ 1 := by
  intro hashFn ops u
  suffices h : ∀ (ops : List (Url × Option ExtractedContent)) (db : List PageRow),
      (∀ v : Url, ((db.filter (fun p => p.url == v)).length ≤ 1)) →
      ∀ v : Url, (((runSaves hashFn db ops).filter (fun p => p.url == v)).length ≤ 1) by
    exact h ops [] (fun v => by simp) u
  intro ops
  induction ops with
  | nil => intro db hdb v; exact hdb v
  | cons op rest ih =>
      intro db hdb v
      rcases op with ⟨u0, c0⟩
      rcases hsave : save_page hashFn db u0 c0 with msg | db2
      · -- the insert was rejected; the state is unchanged
        simp only [runSaves, hsave]
        exact ih db hdb v
      · -- the insert succeeded, so no earlier row carries u0
        simp only [runSaves, hsave]
        have hany : db.any (fun p => p.url == u0) = false := by
          by_cases hc : db.any (fun p => p.url == u0) = true
          · exfalso
            simp only [save_page, hc, if_true] at hsave
            exact Except.noConfusion hsave
          · exact Bool.eq_false_iff.2 hc
        have hdb2 : db2 = db ++ [mkPageRow hashFn u0 c0] := by
          simp only [save_page, hany, Bool.false_eq_true, if_false,
            Except.ok.injEq] at hsave
          exact hsave.symm
        apply ih
        intro w
        rw [hdb2, List.filter_append, List.length_append]
        by_cases hw : u0 = w
        · subst hw
          have hz : (db.filter (fun p => p.url == u0)).length = 0 := by
            rw [List.length_eq_zero]
            apply List.filter_eq_nil_iff.2
            intro p hp
            have := (List.any_eq_false).1 hany p hp
            simpa using this
          have hone : (List.filter (fun p => p.url == u0)
              [mkPageRow hashFn u0 c0]).length ≤ 1 := by
            apply le_trans (List.length_filter_le _ _)
            simp
          omega
        · have hzero : (List.filter (fun p => p.url == w)
              [mkPageRow hashFn u0 c0]).length = 0 := by
            simp [mkPageRow, hw]
          rw [hzero]
          simpa using hdb w

/-! C4: search-query logging. -/

/-- A concrete indexed chunk row for the C4 evaluation. -/
def rowC4 : ChunkRow :=
  { chunk_id := 1, page_id := 1, url := "https://a.test/",
    title := some "Alpha", domain := "a.test", author := none,
    published_date := none, language := none,
    page_content := some "The quick brown fox.",
    chunk_content := "The quick brown fox.", chunk_index := 0,
    embedding := some [1] }

/-- C4: the claim says a failure while writing the search-query log row
does not change the search response. In the source the log write is not
wrapped in any error handling, so when an api_key is present and the write
fails, the exception propagates out of search and the caller receives the
error instead of the results — evaluated here on a one-row index where the
identical search with a succeeding log write returns one result. -/
theorem C4_log_failure_aborts_search :
    SearchService.search (fun _ _ => 0) (fun _ _ => []) [rowC4] "fox" [1] 5
        false false none (some 1) (fun _ => Except.error "log write failed")
      = Except.error "log write failed" ∧
    (SearchService.search (fun _ _ => 0) (fun _ _ => []) [rowC4] "fox" [1] 5
        false false none (some 1) (fun _ => Except.ok ())).toOption.map
          (fun resp => resp.total_results)
      = some 1 :=
  ⟨rfl, rfl⟩

/-! C5: single-URL fetch error cases. -/

/-- Extracted content with every field absent, for concrete evaluations. -/
def emptyContent : ExtractedContent :=
  { title := none, description := none, content := none, markdown := none,
    author := none, published_date := none, language := none, links := [] }

/-- C5 counterexample: the claim says a fetch that times out returns error
exactly "timeout"; the source returns the message
"Timeout while loading page". -/
theorem C5_counterexample :
    (crawl_url (fun _ _ => emptyContent) urlC1 NavOutcome.timeout).error
      = some "Timeout while loading page" ∧
    (crawl_url (fun _ _ => emptyContent) urlC1 NavOutcome.timeout).error
      ≠ some "timeout" := by
  refine ⟨by decide, by decide⟩

/-- C5 amended: a fetch that times out returns a CrawlResult with status 0
and error "Timeout while loading page"; a fetch answered with HTTP status
at least 400 returns that status, no document, and the error HTTP followed
by the status; any other failure returns status 0 with the failure message
as the error. -/
theorem C5_crawl_url_error_cases :
    ∀ (extract : Url → String → ExtractedContent) (u : Url)
      (response : Option Nat) (html msg : String),
      (400 ≤ response.getD 0 →
        crawl_url extract u (NavOutcome.ok response html)
          = { url := u, status_code := response.getD 0, content := none,
              error := some ("HTTP " ++ toString (response.getD 0)) }) ∧
      crawl_url extract u NavOutcome.timeout
        = { url := u, status_code := 0, content := none,
            error := some "Timeout while loading page" } ∧
      crawl_url extract u (NavOutcome.failure msg)
        = { url := u, status_code := 0, content := none, error := some msg } := by
  intro extract u response html msg
  refine ⟨?_, rfl, rfl⟩
  intro h
  rw [crawl_url]
  simp [h]

/-- C5 witness: the HTTP 404 case evaluated at a concrete URL. -/
theorem C5_witness :
    crawl_url (fun _ _ => emptyContent) urlC1 (NavOutcome.ok (some 404) "")
      = { url := urlC1, status_code := 404, content := none,
          error := some "HTTP 404" } :=
  (C5_crawl_url_error_cases (fun _ _ => emptyContent) urlC1 (some 404) "" "x").1
    (by decide)

/-! C6: chunk position bounds. -/

theorem pyIdx_le (len : Nat) (i : Int) : pyIdx len i ≤ len := by
  unfold pyIdx
  split <;> omega

/-- Branch characterization of pyIdx usable by omega. -/
theorem pyIdx_cases (len : Nat) (i : Int) :
    (i < 0 ∧ (pyIdx len i : Int) = max ((len : Int) + i) 0) ∨
    (0 ≤ i ∧ (pyIdx len i : Int) = min i len) := by
  unfold pyIdx
  by_cases hi : i < 0
  · left
    refine ⟨hi, ?_⟩
    rw [if_pos hi]
    omega
  · right
    refine ⟨by omega, ?_⟩
    rw [if_neg hi]
    omega

theorem length_pySlice (l : List Char) (i j : Int) :
    (pySlice l i j).length = pyIdx l.length j - pyIdx l.length i := by
  have hj := pyIdx_le l.length j
  simp only [pySlice, List.length_take, List.length_drop]
  omega

theorem pySlice_same (l : List Char) (i : Int) : pySlice l i i = [] := by
  simp [pySlice]

theorem pyRfind_isPrefix (hay needle : List Char) (pos : Nat)
    (h : pyRfind hay needle = some pos) :
    needle.isPrefixOf (hay.drop pos) = true := by
  unfold pyRfind at h
  have hmem := List.mem_of_mem_getLast? h
  exact (List.mem_filter.1 hmem).2

theorem pyRfind_bound (hay needle : List Char) (pos : Nat)
    (h : pyRfind hay needle = some pos) :
    pos + needle.length ≤ hay.length := by
  have hp := pyRfind_isPrefix hay needle pos h
  have hpre := List.isPrefixOf_iff_prefix.1 hp
  have hlen := hpre.length_le
  rw [List.length_drop] at hlen
  have hpos : pos ≤ hay.length := by
    unfold pyRfind at h
    have hmem := List.mem_of_mem_getLast? h
    have := (List.mem_filter.1 hmem).1
    have := List.mem_range.1 this
    omega
  omega

theorem findSep_spec :
    ∀ (seps : List (List Char)) (s : List Char) (ps : Nat × Nat),
      findSep seps s = some ps →
      ∃ sep ∈ seps, pyRfind s sep = some ps.1 ∧ ps.2 = sep.length := by
  intro seps
  induction seps with
  | nil =>
      intro s ps h
      exact absurd h (by simp [findSep])
  | cons sep rest ih =>
      intro s ps h
      rw [findSep] at h
      rcases hr : pyRfind s sep with _ | pos
      · rw [hr] at h
        rcases ih s ps h with ⟨t, ht, h2⟩
        exact ⟨t, List.mem_cons_of_mem _ ht, h2⟩
      · rw [hr] at h
        obtain rfl := Option.some.inj h
        exact ⟨sep, List.mem_cons_self _ _, hr, rfl⟩

/-- Every separator searched for by the chunker has two characters. -/
theorem chunkSeparators_length : ∀ s ∈ chunkSeparators, s.length = 2 := by
  decide

/-- The window end never moves before the window start. -/
theorem le_chunkEnd (text : List Char) (cs : Nat) (start : Int)
    (h : start < (text.length : Int)) : start ≤ chunkEnd text cs start := by
  unfold chunkEnd
  by_cases hlt : start + (cs : Int) < (text.length : Int)
  · rw [if_pos hlt]
    rcases hfs : findSep chunkSeparators
        (pySlice text (start + ((4 * cs / 5 : Nat) : Int)) (start + (cs : Int)))
      with _ | ps
    · simp only [hfs]
      omega
    · simp only [hfs]
      omega
  · rw [if_neg hlt]
    omega

/-- The window end never passes the end of the text. -/
theorem chunkEnd_le (text : List Char) (cs : Nat) (start : Int)
    (h : start < (text.length : Int)) :
    chunkEnd text cs start ≤ (text.length : Int) := by
  unfold chunkEnd
  by_cases hlt : start + (cs : Int) < (text.length : Int)
  · rw [if_pos hlt]
    rcases hfs : findSep chunkSeparators
        (pySlice text (start + ((4 * cs / 5 : Nat) : Int)) (start + (cs : Int)))
      with _ | ps
    · simp only [hfs]
      omega
    · simp only [hfs]
      rcases findSep_spec _ _ _ hfs with ⟨sep, hsep, hrf, hlen2⟩
      have hslen := chunkSeparators_length sep hsep
      have hb := pyRfind_bound _ _ _ hrf
      rw [length_pySlice] at hb
      have hI1 := pyIdx_cases text.length (start + ((4 * cs / 5 : Nat) : Int))
      have hI2 := pyIdx_cases text.length (start + (cs : Int))
      have hle1 := pyIdx_le text.length (start + ((4 * cs / 5 : Nat) : Int))
      have hle2 := pyIdx_le text.length (start + (cs : Int))
      omega
  · rw [if_neg hlt]

/-- A window that produced a nonempty stripped piece is properly below its
end position. -/
theorem lt_chunkEnd_of_piece (text : List Char) (cs : Nat) (start : Int)
    (h : start < (text.length : Int))
    (hp : pyStrip (pySlice text start (chunkEnd text cs start)) ≠ []) :
    start < chunkEnd text cs start := by
  rcases lt_or_eq_of_le (le_chunkEnd text cs start h) with hlt | heq
  · exact hlt
  · exfalso
    apply hp
    rw [← heq, pySlice_same]
    rfl

/-- Any chunk present after one iteration either was there before or has
in-bounds positions. -/
theorem chunkIter_chunks (text : List Char) (cs co : Nat) (start : Int)
    (chunks : List Chunk) (h : start < (text.length : Int)) (c : Chunk)
    (hc : c ∈ (chunkIter text cs co start chunks).2) :
    c ∈ chunks ∨
      (c.start_char < c.end_char ∧ c.end_char ≤ (text.length : Int)) := by
  unfold chunkIter at hc
  simp only [] at hc
  by_cases hp : pyStrip (pySlice text start (chunkEnd text cs start)) ≠ []
  · rw [if_pos hp] at hc
    rcases List.mem_append.1 hc with h1 | h2
    · exact Or.inl h1
    · right
      obtain rfl := List.mem_singleton.1 h2
      exact ⟨lt_chunkEnd_of_piece text cs start h hp,
             chunkEnd_le text cs start h⟩
  · rw [if_neg hp] at hc
    exact Or.inl hc

/-- Chunk-position bounds are preserved by the whole loop. -/
theorem chunkLoop_chunks (text : List Char) (cs co : Nat) :
    ∀ (fuel : Nat) (start : Int) (chunks out : List Chunk),
      (∀ c ∈ chunks, c.start_char < c.end_char ∧
        c.end_char ≤ (text.length : Int)) →
      chunkLoop text cs co fuel start chunks = some out →
      ∀ c ∈ out, c.start_char < c.end_char ∧
        c.end_char ≤ (text.length : Int) := by
  intro fuel
  induction fuel with
  | zero =>
      intro start chunks out _ h
      exact absurd h (by simp [chunkLoop])
  | succ n ih =>
      intro start chunks out hinv h
      rw [chunkLoop] at h
      split at h
      · rename_i hlt
        refine ih _ _ _ ?_ h
        intro c hc
        rcases chunkIter_chunks text cs co start chunks hlt c hc with h1 | h2
        · exact hinv c h1
        · exact h2
      · obtain rfl := Option.some.inj h
        exact hinv

/-- C6: for every non-empty input text, if the length of the text is at
most the chunk size then the chunker returns exactly one chunk spanning the
whole input (start 0, end the length); and every chunk the chunker returns
satisfies start_char < end_char ≤ length of the input text. -/
theorem C6_chunk_bounds :
    ∀ (text : List Char) (chunk_size chunk_overlap fuel : Nat), text ≠ [] →
      (text.length ≤ chunk_size →
        chunk_text fuel text chunk_size chunk_overlap
          = some [⟨text, 0, (text.length : Int)⟩]) ∧
      (∀ out, chunk_text fuel text chunk_size chunk_overlap = some out →
        ∀ c ∈ out, c.start_char < c.end_char ∧
          c.end_char ≤ (text.length : Int)) := by
  intro text cs co fuel hne
  constructor
  · intro h
    simp [chunk_text, h]
  · intro out hout c hc
    unfold chunk_text at hout
    split at hout
    · obtain rfl := Option.some.inj hout
      obtain rfl := List.mem_singleton.1 hc
      refine ⟨?_, le_refl _⟩
      show (0 : Int) < (text.length : Int)
      have := List.length_pos.2 hne
      omega
    · exact chunkLoop_chunks text cs co fuel 0 [] out (by simp) hout c hc

/-- C6 witness: a two-character text with chunk size 5. -/
theorem C6_witness :
    chunk_text 3 ['a', 'b'] 5 1 = some [⟨['a', 'b'], 0, 2⟩] :=
  (C6_chunk_bounds ['a', 'b'] 5 1 3 (by decide)).1 (by decide)

/-! C2: vector search deduplication, ordering and top-k. -/

theorem mkSearchResult_page_id (d : List ℚ → List ℚ → ℚ) (q : List ℚ)
    (r : ChunkRow) : (mkSearchResult d q r).page_id = r.page_id := rfl

theorem mkSearchResult_score (d : List ℚ → List ℚ → ℚ) (q : List ℚ)
    (r : ChunkRow) : (mkSearchResult d q r).score = scoreOf d q r := rfl

/-- The deduplication output never repeats a page id, and none of its page
ids lies in the seen set. -/
theorem dedupByPage_pageIds (d : List ℚ → List ℚ → ℚ) (q : List ℚ) :
    ∀ (rows : List ChunkRow) (seen : List Nat),
      ((dedupByPage d q rows seen).map (fun r => r.page_id)).Nodup ∧
      ∀ r ∈ dedupByPage d q rows seen, ¬ r.page_id ∈ seen := by
  intro rows
  induction rows with
  | nil =>
      intro seen
      exact ⟨List.nodup_nil, by simp [dedupByPage]⟩
  | cons x rest ih =>
      intro seen
      rw [dedupByPage]
      by_cases hx : seen.contains x.page_id = true
      · rw [if_pos hx]
        exact ih seen
      · rw [if_neg hx]
        have hxmem : ¬ x.page_id ∈ seen := by
          intro hmem
          exact hx (by simpa using hmem)
        constructor
        · rw [List.map_cons, List.nodup_cons]
          constructor
          · intro hmem
            rcases List.mem_map.1 hmem with ⟨r, hr, hpg⟩
            have hnot := (ih (x.page_id :: seen)).2 r hr
            apply hnot
            rw [hpg, mkSearchResult_page_id]
            exact List.mem_cons_self _ _
          · exact (ih (x.page_id :: seen)).1
        · intro r hr
          rcases List.mem_cons.1 hr with rfl | hr2
          · rw [mkSearchResult_page_id]
            exact hxmem
          · intro hmem
            exact (ih (x.page_id :: seen)).2 r hr2
              (List.mem_cons_of_mem _ hmem)

/-- Every deduplication output element is the formatted version of one of
the fetched rows. -/
theorem dedupByPage_src (d : List ℚ → List ℚ → ℚ) (q : List ℚ) :
    ∀ (rows : List ChunkRow) (seen : List Nat) (r : SearchResult),
      r ∈ dedupByPage d q rows seen →
      ∃ row ∈ rows, r = mkSearchResult d q row := by
  intro rows
  induction rows with
  | nil =>
      intro seen r hr
      simp [dedupByPage] at hr
  | cons x rest ih =>
      intro seen r hr
      rw [dedupByPage] at hr
      by_cases hx : seen.contains x.page_id = true
      · rw [if_pos hx] at hr
        rcases ih seen r hr with ⟨row, h1, h2⟩
        exact ⟨row, List.mem_cons_of_mem _ h1, h2⟩
      · rw [if_neg hx] at hr
        rcases List.mem_cons.1 hr with rfl | hr2
        · exact ⟨x, List.mem_cons_self _ _, rfl⟩
        · rcases ih (x.page_id :: seen) r hr2 with ⟨row, h1, h2⟩
          exact ⟨row, List.mem_cons_of_mem _ h1, h2⟩

/-- On rows sorted by score descending, the row kept for a page scores at
least as high as every fetched row of the same page. -/
theorem dedupByPage_best (d : List ℚ → List ℚ → ℚ) (q : List ℚ) :
    ∀ (rows : List ChunkRow) (seen : List Nat),
      rows.Pairwise (fun a b => scoreOf d q b ≤ scoreOf d q a) →
      ∀ r ∈ dedupByPage d q rows seen, ∀ row ∈ rows,
        row.page_id = r.page_id → scoreOf d q row ≤ r.score := by
  intro rows
  induction rows with
  | nil =>
      intro seen _ r hr
      simp [dedupByPage] at hr
  | cons x rest ih =>
      intro seen hpw r hr row hrow hpid
      have hhead := (List.pairwise_cons.1 hpw).1
      have hrest := (List.pairwise_cons.1 hpw).2
      rw [dedupByPage] at hr
      by_cases hx : seen.contains x.page_id = true
      · rw [if_pos hx] at hr
        rcases List.mem_cons.1 hrow with heq | hrow2
        · exfalso
          have hseen := (dedupByPage_pageIds d q rest seen).2 r hr
          apply hseen
          rw [← hpid, heq]
          simpa using hx
        · exact ih seen hrest r hr row hrow2 hpid
      · rw [if_neg hx] at hr
        rcases List.mem_cons.1 hr with heqr | hr2
        · rcases List.mem_cons.1 hrow with heq | hrow2
          · rw [heqr, mkSearchResult_score, heq]
          · rw [heqr, mkSearchResult_score]
            exact hhead row hrow2
        · rcases List.mem_cons.1 hrow with heq | hrow2
          · exfalso
            have hseen := (dedupByPage_pageIds d q rest (x.page_id :: seen)).2
              r hr2
            apply hseen
            rw [← hpid, heq]
            exact List.mem_cons_self _ _
          · exact ih (x.page_id :: seen) hrest r hr2 row hrow2 hpid

/-- Deduplication of a score-descending row list yields a score-descending
result list. -/
theorem dedupByPage_pairwise (d : List ℚ → List ℚ → ℚ) (q : List ℚ) :
    ∀ (rows : List ChunkRow) (seen : List Nat),
      rows.Pairwise (fun a b => scoreOf d q b ≤ scoreOf d q a) →
      (dedupByPage d q rows seen).Pairwise (fun a b => b.score ≤ a.score) := by
  intro rows
  induction rows with
  | nil =>
      intro seen _
      simp [dedupByPage]
  | cons x rest ih =>
      intro seen hpw
      have hhead := (List.pairwise_cons.1 hpw).1
      have hrest := (List.pairwise_cons.1 hpw).2
      rw [dedupByPage]
      by_cases hx : seen.contains x.page_id = true
      · rw [if_pos hx]
        exact ih seen hrest
      · rw [if_neg hx]
        rw [List.pairwise_cons]
        constructor
        · intro b hb
          rcases dedupByPage_src d q rest (x.page_id :: seen) b hb
            with ⟨row, hrow, rfl⟩
          rw [mkSearchResult_score, mkSearchResult_score]
          exact hhead row hrow
        · exact ih (x.page_id :: seen) hrest

theorem dedupByPage_length (d : List ℚ → List ℚ → ℚ) (q : List ℚ) :
    ∀ (rows : List ChunkRow) (seen : List Nat),
      (dedupByPage d q rows seen).length ≤ rows.length := by
  intro rows
  induction rows with
  | nil =>
      intro seen
      simp [dedupByPage]
  | cons x rest ih =>
      intro seen
      rw [dedupByPage]
      by_cases hx : seen.contains x.page_id = true
      · rw [if_pos hx]
        exact le_trans (ih seen) (Nat.le_succ _)
      · rw [if_neg hx]
        rw [List.length_cons]
        exact Nat.succ_le_succ (ih (x.page_id :: seen))

/-- The fetched rows are sorted by score descending. -/
theorem sqlSearchRows_sorted (d : List ℚ → List ℚ → ℚ) (q : List ℚ)
    (k : Nat) (filters : Option SearchFilters) (table : List ChunkRow) :
    (sqlSearchRows d q k filters table).Pairwise
      (fun a b => scoreOf d q b ≤ scoreOf d q a) := by
  unfold sqlSearchRows
  apply List.Pairwise.sublist (List.take_sublist _ _)
  haveI : IsTotal ChunkRow (fun a b => scoreOf d q b ≤ scoreOf d q a) :=
    ⟨fun a b => le_total _ _⟩
  haveI : IsTrans ChunkRow (fun a b => scoreOf d q b ≤ scoreOf d q a) :=
    ⟨fun a b c h1 h2 => le_trans h2 h1⟩
  exact List.sorted_insertionSort _ _

/-- C2: for every query vector, limit and filter set, the vector-store
search result has pairwise-distinct page ids, the row kept for a page
scores at least as high as every returned chunk of that page, the list is
ordered by score descending, and its length is at most the limit. -/
theorem C2_search_dedup_topk :
    ∀ (dist : List ℚ → List ℚ → ℚ) (query_embedding : List ℚ) (k : Nat)
      (filters : Option SearchFilters) (table : List ChunkRow),
      ((VectorStore.search dist query_embedding k filters table).map
        (fun r => r.page_id)).Nodup ∧
      (∀ r ∈ VectorStore.search dist query_embedding k filters table,
        ∀ row ∈ sqlSearchRows dist query_embedding k filters table,
          row.page_id = r.page_id →
            scoreOf dist query_embedding row ≤ r.score) ∧
      (VectorStore.search dist query_embedding k filters table).Pairwise
        (fun a b => b.score ≤ a.score) ∧
      (VectorStore.search dist query_embedding k filters table).length ≤ k := by
  intro dist q k filters table
  have hsorted := sqlSearchRows_sorted dist q k filters table
  refine ⟨(dedupByPage_pageIds dist q _ []).1, ?_, ?_, ?_⟩
  · intro r hr row hrow hpid
    exact dedupByPage_best dist q _ [] hsorted r hr row hrow hpid
  · exact dedupByPage_pairwise dist q _ [] hsorted
  · refine le_trans (dedupByPage_length dist q _ []) ?_
    unfold sqlSearchRows
    exact List.length_take_le _ _

/-- The cosine distance used in the C2 witness: the head of the chunk
embedding. -/
def distC2 : List ℚ → List ℚ → ℚ := fun e _ => e.headD 0

/-- The concrete chunk row of the C2 witness. -/
def rowC2a : ChunkRow :=
  { chunk_id := 1, page_id := 1, url := "https://a.test/", title := none,
    domain := "a.test", author := none, published_date := none,
    language := none, page_content := none, chunk_content := "x",
    chunk_index := 0, embedding := some [0] }

/-- C2 witness: the theorem applied to a concrete one-row table, with the
membership hypotheses discharged on the evaluated search output. -/
theorem C2_witness :
    scoreOf distC2 [0] rowC2a ≤ (mkSearchResult distC2 [0] rowC2a).score :=
  (C2_search_dedup_topk distC2 [0] 3 none [rowC2a]).2.1
    (mkSearchResult distC2 [0] rowC2a)
    (show mkSearchResult distC2 [0] rowC2a ∈
        [mkSearchResult distC2 [0] rowC2a] from List.mem_cons_self _ _)
    rowC2a
    (show rowC2a ∈ [rowC2a] from List.mem_cons_self _ _)
    rfl

/-! C8: crawl scope enforcement. -/

/-- The batch and the remaining frontier selected by takeBatch are drawn
from the frontier. -/
theorem takeBatch_subset :
    ∀ (frontier : List Url) (visited : List String) (remaining : Nat),
      (takeBatch visited frontier remaining).1 ⊆ frontier ∧
      (takeBatch visited frontier remaining).2.2 ⊆ frontier := by
  intro frontier
  induction frontier with
  | nil =>
      intro visited remaining
      cases remaining <;> simp [takeBatch]
  | cons u rest ih =>
      intro visited remaining
      cases remaining with
      | zero => simp [takeBatch]
      | succ n =>
          rw [takeBatch]
          by_cases hv : visited.contains (normalize_url u) = true
          · rw [if_pos hv]
            rcases ih visited (n + 1) with ⟨h1, h2⟩
            exact ⟨h1.trans (List.subset_cons_self _ _),
                   h2.trans (List.subset_cons_self _ _)⟩
          · rw [if_neg hv]
            rcases ih (normalize_url u :: visited) n with ⟨h1, h2⟩
            constructor
            · intro x hx
              rcases List.mem_cons.1 hx with rfl | hx2
              · exact List.mem_cons_self _ _
              · exact List.mem_cons_of_mem _ (h1 hx2)
            · exact h2.trans (List.subset_cons_self _ _)

/-- Every URL appended to the frontier passed the scope test. -/
theorem collectLinks_in_scope :
    ∀ (base_domain : String) (include_subdomains : Bool)
      (visited : List String) (brs : List CrawlResult) (l : Url),
      l ∈ collectLinks base_domain include_subdomains visited brs →
      is_in_scope l base_domain include_subdomains = true := by
  intro base incl visited brs l hl
  unfold collectLinks at hl
  rcases List.mem_flatMap.1 hl with ⟨r, _, hlr⟩
  cases hc : r.content with
  | none =>
      rw [hc] at hlr
      simp at hlr
  | some c =>
      rw [hc] at hlr
      have hf := (List.mem_filter.1 hlr).2
      rw [Bool.and_eq_true] at hf
      exact hf.1

/-- crawl_url reports exactly the URL it was given. -/
theorem crawl_url_url (extract : Url → String → ExtractedContent) (u : Url)
    (nav : NavOutcome) : (crawl_url extract u nav).url = u := by
  cases nav with
  | ok response html =>
      by_cases h : 400 ≤ response.getD 0
      · simp [crawl_url, h]
      · simp [crawl_url, h]
  | timeout => rfl
  | failure m => rfl

/-- Scope invariant of the site-walk loop: when frontier and results only
hold the seed or in-scope URLs, every loop result is the seed or
in-scope. -/
theorem crawl_site_loop_scope (fetch : Url → NavOutcome)
    (extract : Url → String → ExtractedContent) (base : String) (incl : Bool)
    (max_pages max_concurrent : Nat) (seed : Url) :
    ∀ (fuel : Nat) (visited : List String) (frontier : List Url)
      (results : List CrawlResult),
      (∀ u ∈ frontier, u = seed ∨ is_in_scope u base incl = true) →
      (∀ r ∈ results, r.url = seed ∨ is_in_scope r.url base incl = true) →
      ∀ r ∈ crawl_site_loop fetch extract base incl max_pages max_concurrent
          fuel visited frontier results,
        r.url = seed ∨ is_in_scope r.url base incl = true := by
  intro fuel
  induction fuel with
  | zero =>
      intro visited frontier results _ hres r hr
      exact hres r hr
  | succ n ih =>
      intro visited frontier results hfr hres r hr
      rw [crawl_site_loop] at hr
      split at hr
      · split at hr
        rename_i batch visited2 frontier2 htb
        have hbatch : batch ⊆ frontier := by
          have h1 := (takeBatch_subset frontier visited
            (min max_concurrent (max_pages - results.length))).1
          rw [htb] at h1
          exact h1
        have hfrontier2 : frontier2 ⊆ frontier := by
          have h2 := (takeBatch_subset frontier visited
            (min max_concurrent (max_pages - results.length))).2
          rw [htb] at h2
          exact h2
        split at hr
        · exact hres r hr
        · refine ih _ _ _ ?_ ?_ r hr
          · intro u hu
            rcases List.mem_append.1 hu with hu1 | hu2
            · exact hfr u (hfrontier2 hu1)
            · exact Or.inr (collectLinks_in_scope base incl _ _ u hu2)
          · intro r2 hr2
            rcases List.mem_append.1 hr2 with h1 | h2
            · exact hres r2 h1
            · rcases List.mem_map.1 h2 with ⟨u, hu, rfl⟩
              rw [crawl_url_url]
              exact hfr u (hbatch hu)
      · exact hres r hr

/-- C8: in a crawl_site run with include_subdomains false every result URL
is the seed itself or has the netloc of the seed; and only links whose
scheme is http or https and whose netloc passes the scope test are ever
enqueued on the frontier. -/
theorem C8_scope_enforcement :
    (∀ (fetch : Url → NavOutcome) (extract : Url → String → ExtractedContent)
       (seed : Url) (max_pages max_concurrent : Nat) (r : CrawlResult),
       r ∈ crawl_site fetch extract seed max_pages max_concurrent false →
       r.url = seed ∨ r.url.netloc = seed.netloc) ∧
    (∀ (base_domain : String) (include_subdomains : Bool)
       (visited : List String) (brs : List CrawlResult) (l : Url),
       l ∈ collectLinks base_domain include_subdomains visited brs →
       (l.scheme = "http" ∨ l.scheme = "https") ∧
       (if include_subdomains then l.netloc.endsWith base_domain = true
        else l.netloc = base_domain)) := by
  have hscheme : ∀ (l : Url) (base : String) (incl : Bool),
      is_in_scope l base incl = true →
      (l.scheme = "http" ∨ l.scheme = "https") := by
    intro l base incl h
    unfold is_in_scope at h
    split at h
    · exact absurd h (by simp)
    · rename_i hs
      exact not_not.1 hs
  have hnetloc : ∀ (l : Url) (base : String) (incl : Bool),
      is_in_scope l base incl = true →
      (if incl then l.netloc.endsWith base = true else l.netloc = base) := by
    intro l base incl h
    unfold is_in_scope at h
    split at h
    · exact absurd h (by simp)
    · cases incl with
      | false =>
          rw [if_neg (fun hc => Bool.noConfusion hc)] at h
          simp only [Bool.false_eq_true, if_false]
          exact eq_of_beq h
      | true =>
          rw [if_pos rfl] at h
          simp only [if_true]
          exact h
  constructor
  · intro fetch extract seed mp mc r hr
    have h := crawl_site_loop_scope fetch extract seed.netloc false mp mc seed
      (mp + 1) [] [seed] []
      (by
        intro u hu
        exact Or.inl (List.mem_singleton.1 hu))
      (by simp) r hr
    rcases h with h | h
    · exact Or.inl h
    · right
      have := hnetloc r.url seed.netloc false h
      simpa using this
  · intro base incl visited brs l hl
    have hs := collectLinks_in_scope base incl visited brs l hl
    exact ⟨hscheme l base incl hs, hnetloc l base incl hs⟩

/-- The crawl result of the C8 witness: the failed fetch of the seed. -/
def resC8 : CrawlResult :=
  { url := urlC1, status_code := 0, content := none, error := some "x" }

/-- C8 witness: a one-page walk whose only result is the seed fetch. -/
theorem C8_witness :
    resC8.url = urlC1 ∨ resC8.url.netloc = urlC1.netloc :=
  C8_scope_enforcement.1 (fun _ => NavOutcome.failure "x")
    (fun _ _ => emptyContent) urlC1 1 1 resC8 (by decide)

end Gexa
